import Mathlib

/-!
Shallow embedding of the TimeTrackerMinimalistic application core
(src/app/index.tsx): the task record, the TimerStore mutation
operations (startTask, toggleTask, pauseTask, resumeTask, resetTask,
removeTask), the elapsed-time display query from renderItem, and the
persistence layer (JSON encoding of the task list and the load path).

Modelling conventions:
  - Every call to the platform clock Date.now() is passed in explicitly
    as a parameter nowMs : Nat (epoch milliseconds).
  - JavaScript numbers that hold accumulated seconds are modelled as Int
    (the arithmetic performed on them is exact integer arithmetic, and a
    pause under a backwards clock step can drive them negative).
  - Math.floor of the quotient of two integers equals floor division,
    Int.fdiv.
  - JavaScript truthiness tests on the optional numeric field
    startTimestamp (the guards `t.running && t.startTimestamp` in
    pauseTask and `item.running && item.startTimestamp` in renderItem)
    are false when the field is undefined and also when it is 0.
-/

namespace TimeTracker

/-- Task record from src/app/index.tsx lines 5-11: id, name, accumulated
seconds banked before the last start, optional start timestamp (undefined
when paused), and the running flag. -/
structure Task where
  id : String
  name : String
  accumulated : Int
  startTimestamp : Option Nat
  running : Bool
deriving DecidableEq, Repr

/-- Truthiness of the optional numeric field startTimestamp under
JavaScript semantics: undefined and 0 are falsy, every other number is
truthy. -/
def truthyTs : Option Nat → Bool
  | none => false
  | some n => n != 0

/-- Elapsed whole seconds between a start timestamp and the current
instant, as computed by `Math.floor((now - startTimestamp) / 1000)`:
floor division of the exact integer difference by 1000. -/
def elapsedSec (nowMs startMs : Nat) : Int :=
  Int.fdiv ((nowMs : Int) - (startMs : Int)) 1000

/-- Display query from renderItem (src/app/index.tsx lines 160-166):
`item.running && item.startTimestamp ? item.accumulated +
Math.floor((now - item.startTimestamp) / 1000) : item.accumulated`. -/
def queryElapsed (t : Task) (nowMs : Nat) : Int :=
  if t.running && truthyTs t.startTimestamp then
    match t.startTimestamp with
    | some s => t.accumulated + elapsedSec nowMs s
    | none => t.accumulated
  else
    t.accumulated

/-- ECMAScript WhiteSpace and LineTerminator characters recognised by
`String.prototype.trim`: TAB, LF, VT, FF, CR, SP, NBSP, ZWNBSP, the
Unicode Space_Separator code points (U+1680, U+2000 through U+200A,
U+202F, U+205F, U+3000), and the line separators U+2028 and U+2029. -/
def jsWhitespace (c : Char) : Bool :=
  c = ' ' || c = '\t' || c = '\n' || c = '\r' ||
  c = Char.ofNat 11 || c = Char.ofNat 12 || c = Char.ofNat 0xA0 ||
  c = Char.ofNat 0x1680 ||
  (0x2000 ≤ c.toNat && c.toNat ≤ 0x200A) ||
  c = Char.ofNat 0x202F || c = Char.ofNat 0x205F || c = Char.ofNat 0x3000 ||
  c = Char.ofNat 0xFEFF || c = Char.ofNat 0x2028 || c = Char.ofNat 0x2029

/-- Model of `name.trim()`: drop ECMAScript whitespace from both ends. -/
def jsTrim (s : String) : String :=
  String.mk (((s.data.dropWhile jsWhitespace).reverse.dropWhile jsWhitespace).reverse)

/-- startTask from src/app/index.tsx lines 39-54: rejects a name whose
trim is empty (the Alert is modelled as the error outcome), otherwise
appends a new running task whose id is `Date.now().toString()`, with
zero accumulated seconds and startTimestamp the current instant. The
two Date.now() calls inside the function are modelled as the same
instant nowMs. -/
def startTask (name : String) (nowMs : Nat) (tasks : List Task) :
    Except String (List Task) :=
  if jsTrim name = "" then
    Except.error "Please enter a task name."
  else
    Except.ok (tasks ++ [{
      id := Nat.repr nowMs,
      name := name,
      accumulated := 0,
      startTimestamp := some nowMs,
      running := true }])

/-- pauseTask from src/app/index.tsx lines 62-77: maps over the list;
on the task whose id matches, provided it is running and its
startTimestamp is truthy, banks the elapsed whole seconds since
startTimestamp into accumulated, clears startTimestamp and clears the
running flag; every other task is unchanged. -/
def pauseTask (id : String) (nowMs : Nat) (tasks : List Task) : List Task :=
  tasks.map fun t =>
    match t.startTimestamp with
    | some s =>
      if t.id == id && t.running && (s != 0) then
        { t with
          accumulated := t.accumulated + elapsedSec nowMs s,
          startTimestamp := none,
          running := false }
      else t
    | none => t

/-- resumeTask from src/app/index.tsx lines 79-91: maps over the list;
on the task whose id matches it unconditionally sets startTimestamp to
the current instant and the running flag to true, without checking
whether the task was already running and without touching accumulated. -/
def resumeTask (id : String) (nowMs : Nat) (tasks : List Task) : List Task :=
  tasks.map fun t =>
    if t.id == id then
      { t with startTimestamp := some nowMs, running := true }
    else t

/-- toggleTask from src/app/index.tsx lines 56-60: looks the task up by
id; missing id is a no-op; a running task is paused, a non-running task
is resumed. -/
def toggleTask (id : String) (nowMs : Nat) (tasks : List Task) : List Task :=
  match tasks.find? (fun t => t.id == id) with
  | none => tasks
  | some task =>
    if task.running then pauseTask id nowMs tasks else resumeTask id nowMs tasks

/-- resetTask from src/app/index.tsx lines 93-124, confirmed branch: a
missing id is a no-op (the guard at line 95); otherwise the matching
task gets accumulated 0, startTimestamp cleared and running cleared. -/
def resetTask (id : String) (tasks : List Task) : List Task :=
  match tasks.find? (fun t => t.id == id) with
  | none => tasks
  | some _ =>
    tasks.map fun t =>
      if t.id == id then
        { t with accumulated := 0, startTimestamp := none, running := false }
      else t

/-- removeTask from src/app/index.tsx lines 126-146, confirmed branch: a
missing id is a no-op (the guard at line 128); otherwise the matching
task is filtered out of the list. -/
def removeTask (id : String) (tasks : List Task) : List Task :=
  match tasks.find? (fun t => t.id == id) with
  | none => tasks
  | some _ => tasks.filter fun t => t.id != id

/-- Data-model invariant from the spec, section 3: startTimestamp is
defined if and only if running is true. -/
def TaskInv (t : Task) : Prop :=
  t.startTimestamp.isSome = t.running

instance (t : Task) : Decidable (TaskInv t) := by
  unfold TaskInv; infer_instance

/-- The data-model invariant holds for every task in a list. -/
def InvAll (tasks : List Task) : Prop :=
  ∀ t ∈ tasks, TaskInv t

instance (tasks : List Task) : Decidable (InvAll tasks) :=
  List.decidableBAll TaskInv tasks

/-! ### Persistence layer

The app serializes the whole task list with `JSON.stringify(tasks)`
under the key "tasks" (src/app/index.tsx line 36) and reads it back
with `JSON.parse(saved)` (line 23). The serialization format is
modelled as a JSON value tree: `JSON.stringify` maps the task list to
a Json value (encodeTasks below, reflecting field insertion order and
the omission of an undefined startTimestamp), the JSON text layer is
handled by ECMAScript, and `JSON.parse` recovers a structurally
identical Json value from the printed text; reading the parsed value
back at the Task type is decodeTasks. -/

/-- JSON value tree. The numbers occurring in this application are
exact integers (epoch milliseconds and whole seconds), so the number
case carries an Int. -/
inductive Json where
  | null : Json
  | bool (b : Bool) : Json
  | num (n : Int) : Json
  | str (s : String) : Json
  | arr (xs : List Json) : Json
  | obj (fields : List (String × Json)) : Json

/-- Serialization of one task by JSON.stringify: the fields in the
insertion order of the object literal at src/app/index.tsx lines 45-51,
with an undefined startTimestamp omitted from the output. -/
def encodeTask (t : Task) : Json :=
  Json.obj ([("id", Json.str t.id), ("name", Json.str t.name),
    ("accumulated", Json.num t.accumulated)] ++
    (match t.startTimestamp with
     | some s => [("startTimestamp", Json.num (s : Int))]
     | none => []) ++
    [("running", Json.bool t.running)])

/-- Serialization of the task list: a JSON array of the encoded tasks. -/
def encodeTasks (tasks : List Task) : Json :=
  Json.arr (tasks.map encodeTask)

/-- Field lookup in a parsed JSON object. -/
def Json.getField (j : Json) (k : String) : Option Json :=
  match j with
  | Json.obj fields => fields.lookup k
  | _ => none

/-- Reading one parsed JSON value back at the Task type, as the
unchecked cast `const parsed: Task[] = JSON.parse(saved)` makes the
rest of the program do field by field: id and name read as strings,
accumulated as a number, startTimestamp as an optional non-negative
number, running as a boolean. -/
def decodeTask (j : Json) : Option Task := do
  let Json.str id := (← j.getField "id") | none
  let Json.str name := (← j.getField "name") | none
  let Json.num acc := (← j.getField "accumulated") | none
  let Json.bool running := (← j.getField "running") | none
  let st ← match j.getField "startTimestamp" with
    | none => pure (none : Option Nat)
    | some (Json.num s) => if s < 0 then none else pure (some s.toNat)
    | some _ => none
  pure { id := id, name := name, accumulated := acc,
         startTimestamp := st, running := running }

/-- Reading each element of a parsed JSON array back at the Task type;
any element that is not a well-formed task makes the whole list
untyped. -/
def decodeTaskList : List Json → Option (List Task)
  | [] => some []
  | j :: js =>
    match decodeTask j, decodeTaskList js with
    | some t, some ts => some (t :: ts)
    | _, _ => none

/-- Reading a parsed JSON value back as the task list. -/
def decodeTasks (j : Json) : Option (List Task) :=
  match j with
  | Json.arr xs => decodeTaskList xs
  | _ => none

/-! ### String-level model of ECMAScript JSON.parse

The load path needs to distinguish a persisted string that parses from
one on which `JSON.parse` throws a SyntaxError, because loadTasks at
src/app/index.tsx lines 20-26 calls `JSON.parse(saved)` with no
try-catch. The parser below models JSON.parse restricted to integral
number literals, which are the only numbers this application ever
writes; a fractional or exponent part is rejected rather than read as
a float. -/

/-- JSON insignificant whitespace. -/
def jsonWs (c : Char) : Bool :=
  c = ' ' || c = '\t' || c = '\n' || c = '\r'

/-- Skip insignificant whitespace. -/
def skipWs : List Char → List Char
  | [] => []
  | c :: cs => if jsonWs c then skipWs cs else c :: cs

/-- Value of a hexadecimal digit. -/
def hexVal (c : Char) : Option Nat :=
  if '0' ≤ c ∧ c ≤ '9' then some (c.toNat - '0'.toNat)
  else if 'a' ≤ c ∧ c ≤ 'f' then some (c.toNat - 'a'.toNat + 10)
  else if 'A' ≤ c ∧ c ≤ 'F' then some (c.toNat - 'A'.toNat + 10)
  else none

/-- Body of a JSON string literal after the opening quote: returns the
decoded characters and the rest of the input after the closing quote. -/
def parseStrBody : List Char → Except String (List Char × List Char)
  | [] => Except.error "unterminated string literal"
  | '"' :: cs => Except.ok ([], cs)
  | '\\' :: 'u' :: h1 :: h2 :: h3 :: h4 :: cs =>
    match hexVal h1, hexVal h2, hexVal h3, hexVal h4 with
    | some a, some b, some c, some d =>
      match parseStrBody cs with
      | Except.ok (body, rest) =>
        Except.ok (Char.ofNat (((a * 16 + b) * 16 + c) * 16 + d) :: body, rest)
      | Except.error e => Except.error e
    | _, _, _, _ => Except.error "bad unicode escape"
  | '\\' :: e :: cs =>
    match
      (if e = '"' then some '"'
       else if e = '\\' then some '\\'
       else if e = '/' then some '/'
       else if e = 'b' then some (Char.ofNat 8)
       else if e = 'f' then some (Char.ofNat 12)
       else if e = 'n' then some '\n'
       else if e = 'r' then some '\r'
       else if e = 't' then some '\t'
       else none) with
    | some c =>
      match parseStrBody cs with
      | Except.ok (body, rest) => Except.ok (c :: body, rest)
      | Except.error e => Except.error e
    | none => Except.error "bad escape character"
  | '\\' :: [] => Except.error "unterminated escape"
  | c :: cs =>
    match parseStrBody cs with
    | Except.ok (body, rest) => Except.ok (c :: body, rest)
    | Except.error e => Except.error e

/-- Longest digit run at the head of the input. -/
def takeDigits : List Char → (List Char × List Char)
  | [] => ([], [])
  | c :: cs =>
    if c.isDigit then
      let (ds, rest) := takeDigits cs
      (c :: ds, rest)
    else ([], c :: cs)

/-- Numeric value of a digit run. -/
def digitsToNat (ds : List Char) : Nat :=
  ds.foldl (fun a c => 10 * a + (c.toNat - '0'.toNat)) 0

/-- Integral JSON number literal, with optional leading minus; a
fraction or exponent part is outside the modelled integral fragment
and is rejected. -/
def parseNum : List Char → Except String (Int × List Char)
  | [] => Except.error "unexpected end of input in number"
  | cs =>
    let (neg, cs) := match cs with
      | '-' :: rest => (true, rest)
      | _ => (false, cs)
    match takeDigits cs with
    | ([], _) => Except.error "bad number literal"
    | (ds, rest) =>
      match rest with
      | '.' :: _ => Except.error "non-integral number literal"
      | 'e' :: _ => Except.error "non-integral number literal"
      | 'E' :: _ => Except.error "non-integral number literal"
      | _ =>
        let v : Int := (digitsToNat ds : Int)
        Except.ok (if neg then -v else v, rest)

mutual

/-- Recursive JSON value parser, fuelled to make termination
structural; jsonParse supplies fuel larger than the input length so
the fuel never runs out on the inputs it is called on. -/
def parseVal : Nat → List Char → Except String (Json × List Char)
  | 0, _ => Except.error "out of fuel"
  | Nat.succ fuel, cs =>
    match skipWs cs with
    | [] => Except.error "unexpected end of input"
    | 'n' :: 'u' :: 'l' :: 'l' :: rest => Except.ok (Json.null, rest)
    | 't' :: 'r' :: 'u' :: 'e' :: rest => Except.ok (Json.bool true, rest)
    | 'f' :: 'a' :: 'l' :: 's' :: 'e' :: rest => Except.ok (Json.bool false, rest)
    | '"' :: rest =>
      match parseStrBody rest with
      | Except.ok (body, rest) => Except.ok (Json.str (String.mk body), rest)
      | Except.error e => Except.error e
    | '[' :: rest =>
      (match skipWs rest with
       | ']' :: rest => Except.ok (Json.arr [], rest)
       | other => match parseItems fuel other with
         | Except.ok (xs, rest) => Except.ok (Json.arr xs, rest)
         | Except.error e => Except.error e)
    | '{' :: rest =>
      (match skipWs rest with
       | '}' :: rest => Except.ok (Json.obj [], rest)
       | other => match parseMembers fuel other with
         | Except.ok (fs, rest) => Except.ok (Json.obj fs, rest)
         | Except.error e => Except.error e)
    | c :: rest =>
      if c = '-' ∨ c.isDigit then
        match parseNum (c :: rest) with
        | Except.ok (n, rest) => Except.ok (Json.num n, rest)
        | Except.error e => Except.error e
      else Except.error "unexpected character"

/-- Comma-separated array items, ending at the closing bracket. -/
def parseItems : Nat → List Char → Except String (List Json × List Char)
  | 0, _ => Except.error "out of fuel"
  | Nat.succ fuel, cs =>
    match parseVal fuel cs with
    | Except.error e => Except.error e
    | Except.ok (x, rest) =>
      match skipWs rest with
      | ',' :: rest =>
        (match parseItems fuel rest with
         | Except.ok (xs, rest) => Except.ok (x :: xs, rest)
         | Except.error e => Except.error e)
      | ']' :: rest => Except.ok ([x], rest)
      | _ => Except.error "expected comma or closing bracket"

/-- Comma-separated object members, ending at the closing brace. -/
def parseMembers : Nat → List Char →
    Except String (List (String × Json) × List Char)
  | 0, _ => Except.error "out of fuel"
  | Nat.succ fuel, cs =>
    match skipWs cs with
    | '"' :: rest =>
      (match parseStrBody rest with
       | Except.error e => Except.error e
       | Except.ok (key, rest) =>
         match skipWs rest with
         | ':' :: rest =>
           (match parseVal fuel rest with
            | Except.error e => Except.error e
            | Except.ok (v, rest) =>
              match skipWs rest with
              | ',' :: rest =>
                (match parseMembers fuel rest with
                 | Except.ok (fs, rest) =>
                   Except.ok ((String.mk key, v) :: fs, rest)
                 | Except.error e => Except.error e)
              | '}' :: rest => Except.ok ([(String.mk key, v)], rest)
              | _ => Except.error "expected comma or closing brace")
         | _ => Except.error "expected colon")
    | _ => Except.error "expected member key"

end

/-- Model of `JSON.parse` on a whole string: parse one value, then
require only whitespace to remain. The fuel bound exceeds the number
of recursive calls any input of this length can cause. -/
def jsonParse (s : String) : Except String Json :=
  match parseVal (2 * s.length + 8) s.data with
  | Except.error e => Except.error e
  | Except.ok (j, rest) =>
    if (skipWs rest).isEmpty then Except.ok j
    else Except.error "unexpected trailing characters"

/-- Outcome of the load path: a decoded task list, a parsed but
untyped JSON value stored as-is through the unchecked cast, or a
SyntaxError thrown out of JSON.parse. -/
inductive LoadResult where
  | ok (tasks : List Task) : LoadResult
  | okUntyped (j : Json) : LoadResult
  | thrown (e : String) : LoadResult

/-- Whether the load threw. -/
def LoadResult.isThrown : LoadResult → Bool
  | LoadResult.thrown _ => true
  | _ => false

/-- loadTasks from src/app/index.tsx lines 20-26: reads the stored
value under the key "tasks"; a missing value, like an empty string, is
falsy in the guard `if (saved)` and leaves the initial empty task list
in place; otherwise `JSON.parse(saved)` runs with no try-catch, so a
parse failure is a thrown exception, and a parsed value is stored
through the unchecked cast (decoded when it is a well-formed task
array, kept untyped otherwise). -/
def loadTasks (saved : Option String) : LoadResult :=
  match saved with
  | none => LoadResult.ok []
  | some s =>
    if s = "" then LoadResult.ok []
    else
      match jsonParse s with
      | Except.error e => LoadResult.thrown e
      | Except.ok j =>
        match decodeTasks j with
        | some tasks => LoadResult.ok tasks
        | none => LoadResult.okUntyped j

/-! ### Helper lemmas -/

/-- Floor division by 1000 is monotone in the numerator. -/
theorem fdiv_thousand_mono {a b : Int} (h : a ≤ b) :
    Int.fdiv a 1000 ≤ Int.fdiv b 1000 := by
  rw [Int.fdiv_eq_ediv a (by decide), Int.fdiv_eq_ediv b (by decide)]
  exact Int.ediv_le_ediv (by decide) h

/-- Elapsed seconds are monotone in the query instant. -/
theorem elapsedSec_mono {n1 n2 : Nat} (s : Nat) (h : n1 ≤ n2) :
    elapsedSec n1 s ≤ elapsedSec n2 s := by
  unfold elapsedSec
  exact fdiv_thousand_mono (by omega)

/-- Elapsed seconds are non-negative once the query instant has reached
the start instant. -/
theorem elapsedSec_nonneg {now s : Nat} (h : s ≤ now) : 0 ≤ elapsedSec now s := by
  unfold elapsedSec
  exact Int.fdiv_nonneg (by omega) (by decide)

/-- Decoding inverts encoding on a single task. -/
theorem decodeTask_encodeTask (t : Task) : decodeTask (encodeTask t) = some t := by
  cases t with
  | mk id name accumulated startTimestamp running =>
    cases startTimestamp <;> rfl

/-- Decoding inverts encoding on a whole task list. -/
theorem decodeTasks_encodeTasks (tasks : List Task) :
    decodeTasks (encodeTasks tasks) = some tasks := by
  induction tasks with
  | nil => rfl
  | cons t ts ih =>
    simp only [decodeTasks, encodeTasks, List.map_cons, decodeTaskList,
      decodeTask_encodeTask]
    simp only [decodeTasks, encodeTasks] at ih
    simp [ih]

/-! ### Claims -/

/-- C9. Persistence round-trip: serializing a task list and
deserializing it yields an identical list, with the same ids, names,
accumulated seconds, running flags and start timestamps in the same
order. -/
theorem claim9_roundtrip (tasks : List Task) :
    decodeTasks (encodeTasks tasks) = some tasks :=
  decodeTasks_encodeTasks tasks

/-- C5. Monotonicity of the elapsed-time query: for a running task the
displayed value is non-decreasing in the query instant, and for a
non-running task it equals the accumulated seconds at every instant. -/
theorem claim5_query_monotone (t : Task) (n1 n2 : Nat) :
    (t.running = true → n1 ≤ n2 → queryElapsed t n1 ≤ queryElapsed t n2) ∧
    (t.running = false → queryElapsed t n1 = t.accumulated) := by
  constructor
  · intro hr hle
    unfold queryElapsed
    cases hst : t.startTimestamp with
    | none => simp [truthyTs, hst]
    | some s =>
      by_cases hs : s = 0
      · simp [truthyTs, hst, hs]
      · have hguard : truthyTs (some s) = true := by simp [truthyTs, hs]
        simp only [hst, hguard, hr, Bool.and_self, if_true]
        exact Int.add_le_add_left (elapsedSec_mono s hle) _
  · intro hr
    unfold queryElapsed
    simp [hr]

/-- Witness for C5 at a concrete running task and a concrete paused
task. -/
theorem claim5_witness :
    queryElapsed ⟨"1", "a", 0, some 1, true⟩ 1 ≤
      queryElapsed ⟨"1", "a", 0, some 1, true⟩ 2001 ∧
    queryElapsed ⟨"2", "b", 7, none, false⟩ 5 = 7 :=
  ⟨(claim5_query_monotone ⟨"1", "a", 0, some 1, true⟩ 1 2001).1 rfl (by decide),
   (claim5_query_monotone ⟨"2", "b", 7, none, false⟩ 5 9).2 rfl⟩

/-- C3 counterexample: a task satisfying the data-model invariants
(non-negative accumulated seconds, start timestamp present iff running)
whose displayed elapsed time is negative at a query instant earlier
than its start timestamp: renderItem computes
accumulated + floor((now - startedAt)/1000) = 0 + floor(-1000/1000) = -1. -/
theorem claim3_counterexample :
    TaskInv ⟨"1", "t", 0, some 1000, true⟩ ∧
    0 ≤ (⟨"1", "t", 0, some 1000, true⟩ : Task).accumulated ∧
    queryElapsed ⟨"1", "t", 0, some 1000, true⟩ 0 < 0 := by
  refine ⟨by decide, by decide, ?_⟩
  decide

/-- C3 amended: for every task satisfying the data-model invariants,
the displayed elapsed time is non-negative at every query instant that
is not earlier than the start timestamp of a running task (for a
non-running task, at every instant). -/
theorem claim3_display_nonneg (t : Task) (now : Nat)
    (hinv : TaskInv t) (hacc : 0 ≤ t.accumulated)
    (hstart : ∀ s, t.startTimestamp = some s → s ≤ now) :
    0 ≤ queryElapsed t now := by
  unfold queryElapsed
  cases hst : t.startTimestamp with
  | none => simpa [truthyTs, hst] using hacc
  | some s =>
    by_cases hs : s = 0
    · simpa [truthyTs, hst, hs] using hacc
    · have hguard : truthyTs (some s) = true := by simp [truthyTs, hs]
      by_cases hr : t.running
      · simp only [hst, hguard, hr, Bool.and_self, if_true]
        have := elapsedSec_nonneg (hstart s hst)
        omega
      · simp only [hst, Bool.not_eq_true] at hr
        simpa [hr] using hacc

/-- Witness for C3 amended at a concrete running task queried after its
start instant. -/
theorem claim3_witness :
    0 ≤ queryElapsed ⟨"1", "a", 2, some 5, true⟩ 5 :=
  claim3_display_nonneg ⟨"1", "a", 2, some 5, true⟩ 5 (by decide) (by decide)
    (fun s hs => by injection hs with h; omega)

/-- C1 counterexample: a task persisted while running with accumulated
10 and start timestamp 0 survives the persistence round-trip unchanged,
but when queried at instant 60000 the display guard
`item.running && item.startTimestamp` treats the start timestamp 0 as
falsy, so the displayed value is the bare accumulated 10 instead of the
claimed 10 + floor((60000 - 0)/1000) = 70. -/
theorem claim1_counterexample :
    decodeTasks (encodeTasks [⟨"1", "t", 10, some 0, true⟩]) =
      some [⟨"1", "t", 10, some 0, true⟩] ∧
    (⟨"1", "t", 10, some 0, true⟩ : Task).running = true ∧
    queryElapsed ⟨"1", "t", 10, some 0, true⟩ 60000 = 10 ∧
    (10 : Int) + elapsedSec 60000 0 = 70 ∧
    queryElapsed ⟨"1", "t", 10, some 0, true⟩ 60000 ≠
      (10 : Int) + elapsedSec 60000 0 := by
  refine ⟨decodeTasks_encodeTasks _, rfl, by decide, by decide, by decide⟩

/-- C1 amended: for every task persisted while running with accumulated
seconds a and nonzero start timestamp T, the persistence round-trip
leaves the task running with its original start timestamp and
accumulated seconds (no catch-up adjustment), and the displayed elapsed
time at any instant now that is not earlier than T equals
a + floor((now - T)/1000). -/
theorem claim1_restart_durability (idStr nm : String) (a : Int) (T now : Nat)
    (hT : T ≠ 0) (hle : T ≤ now) :
    decodeTasks (encodeTasks [⟨idStr, nm, a, some T, true⟩]) =
      some [⟨idStr, nm, a, some T, true⟩] ∧
    queryElapsed ⟨idStr, nm, a, some T, true⟩ now = a + elapsedSec now T := by
  refine ⟨decodeTasks_encodeTasks _, ?_⟩
  have hguard : truthyTs (some T) = true := by simp [truthyTs, hT]
  simp [queryElapsed, hguard]

/-- Witness for C1 amended: the spec scenario with accumulated 10,
start timestamp 100, queried 60 seconds later, displaying 70. -/
theorem claim1_witness :
    decodeTasks (encodeTasks [⟨"1", "t", 10, some 100, true⟩]) =
      some [⟨"1", "t", 10, some 100, true⟩] ∧
    queryElapsed ⟨"1", "t", 10, some 100, true⟩ 60100 = 10 + elapsedSec 60100 100 :=
  claim1_restart_durability "1" "t" 10 100 60100 (by decide) (by decide)

/-- C6. Pause-then-resume preserves elapsed time: pausing a running
task at instant t and resuming it at the same instant t yields a
queryElapsed value immediately after the resume equal to the
queryElapsed value immediately before the pause. -/
theorem claim6_pause_resume_preserves (t : Task) (tMs : Nat)
    (h : t.running = true) :
    (resumeTask t.id tMs (pauseTask t.id tMs [t])).map
      (fun x => queryElapsed x tMs) = [queryElapsed t tMs] := by
  cases hst : t.startTimestamp with
  | none =>
    simp only [pauseTask, resumeTask, queryElapsed, List.map_cons,
      List.map_nil, hst, beq_self_eq_true, Bool.true_and, truthyTs]
    by_cases htm : tMs = 0 <;>
      simp [htm, elapsedSec, truthyTs, h, Int.sub_self]
  | some s =>
    by_cases hs : s = 0
    · simp only [pauseTask, resumeTask, queryElapsed, List.map_cons,
        List.map_nil, hst, hs, beq_self_eq_true, Bool.true_and, truthyTs]
      by_cases htm : tMs = 0 <;>
        simp [htm, elapsedSec, truthyTs, h, Int.sub_self]
    · have hbne : (s != 0) = true := by simp [hs]
      simp only [pauseTask, resumeTask, queryElapsed, List.map_cons,
        List.map_nil, hst, hbne, h, beq_self_eq_true, Bool.true_and,
        Bool.and_true, if_true, truthyTs]
      by_cases htm : tMs = 0 <;>
        simp [htm, elapsedSec, truthyTs, h, hbne, hst, Int.sub_self]

/-- Witness for C6 at a concrete running task paused and resumed at
instant 2500. -/
theorem claim6_witness :
    (resumeTask "1" 2500 (pauseTask "1" 2500 [⟨"1", "a", 3, some 1000, true⟩])).map
      (fun x => queryElapsed x 2500) =
      [queryElapsed ⟨"1", "a", 3, some 1000, true⟩ 2500] :=
  claim6_pause_resume_preserves ⟨"1", "a", 3, some 1000, true⟩ 2500 rfl

/-- C7. Add validation with atomicity: startTask fails exactly when the
trimmed name is empty, the failure outcome carries no new task list (the
source returns before any setTasks call, so the list is unchanged), and
on a non-whitespace name it appends exactly one new task, running, with
zero accumulated seconds and the current instant as start timestamp. -/
theorem claim7_add_validation (name : String) (nowMs : Nat) (tasks : List Task) :
    ((startTask name nowMs tasks).isOk = false ↔ jsTrim name = "") ∧
    (jsTrim name = "" →
      startTask name nowMs tasks = Except.error "Please enter a task name.") ∧
    (jsTrim name ≠ "" →
      startTask name nowMs tasks =
        Except.ok (tasks ++ [⟨Nat.repr nowMs, name, 0, some nowMs, true⟩])) := by
  refine ⟨?_, ?_, ?_⟩
  · unfold startTask
    by_cases h : jsTrim name = "" <;> simp [h, Except.isOk, Except.toBool]
  · intro h; simp [startTask, h]
  · intro h; simp [startTask, h]

/-- Witness for C7: a space-only name and an ideographic-space-only
name (U+3000, stripped by String.prototype.trim) are rejected, and a
concrete non-whitespace name appends exactly one running task with
zero accumulated seconds, id "5" and start timestamp 5. -/
theorem claim7_witness :
    startTask "  " 5 [] = Except.error "Please enter a task name." ∧
    startTask "　" 5 [] = Except.error "Please enter a task name." ∧
    startTask "hi" 5 [] = Except.ok [⟨"5", "hi", 0, some 5, true⟩] :=
  ⟨(claim7_add_validation "  " 5 []).2.1 (by decide),
   (claim7_add_validation "　" 5 []).2.1 (by decide),
   (claim7_add_validation "hi" 5 []).2.2 (by decide)⟩

/-- C8. State invariant preserved by every operation: when every task
in the store satisfies the invariant that startTimestamp is defined iff
running is true, each of add, pause, resume, reset and remove leaves a
store in which every task still satisfies it. -/
theorem claim8_invariant_preserved (tasks : List Task) (hinv : InvAll tasks) :
    (∀ name nowMs out, startTask name nowMs tasks = Except.ok out → InvAll out) ∧
    (∀ id nowMs, InvAll (pauseTask id nowMs tasks)) ∧
    (∀ id nowMs, InvAll (resumeTask id nowMs tasks)) ∧
    (∀ id, InvAll (resetTask id tasks)) ∧
    (∀ id, InvAll (removeTask id tasks)) := by
  refine ⟨?_, ?_, ?_, ?_, ?_⟩
  · intro name nowMs out hok t ht
    unfold startTask at hok
    by_cases h : jsTrim name = ""
    · simp [h] at hok
    · simp only [h, if_neg, if_false] at hok
      cases hok
      rcases List.mem_append.mp ht with hold | hnew
      · exact hinv t hold
      · simp only [List.mem_singleton] at hnew
        subst hnew
        rfl
  · intro id nowMs t ht
    rcases List.mem_map.mp ht with ⟨x, hx, hfx⟩
    subst hfx
    cases hst : x.startTimestamp with
    | none => simpa [hst] using hinv x hx
    | some s =>
      by_cases hc : (x.id == id && x.running && (s != 0)) = true
      · simp [hst, hc, TaskInv]
      · simpa [hst, hc] using hinv x hx
  · intro id nowMs t ht
    rcases List.mem_map.mp ht with ⟨x, hx, hfx⟩
    subst hfx
    by_cases hc : (x.id == id) = true
    · simp [hc, TaskInv]
    · simpa [hc] using hinv x hx
  · intro id t ht
    unfold resetTask at ht
    cases hfind : tasks.find? (fun t => t.id == id) with
    | none => simp only [hfind] at ht; exact hinv t ht
    | some task =>
      simp only [hfind] at ht
      rcases List.mem_map.mp ht with ⟨x, hx, hfx⟩
      subst hfx
      by_cases hc : (x.id == id) = true
      · simp [hc, TaskInv]
      · simpa [hc] using hinv x hx
  · intro id t ht
    unfold removeTask at ht
    cases hfind : tasks.find? (fun t => t.id == id) with
    | none => simp only [hfind] at ht; exact hinv t ht
    | some task =>
      simp only [hfind] at ht
      exact hinv t (List.mem_of_mem_filter ht)

/-- Witness for C8 at a concrete invariant-satisfying store: pausing
and then the other operations all preserve the invariant. -/
theorem claim8_witness :
    InvAll (pauseTask "1" 7 [⟨"1", "a", 0, some 5, true⟩, ⟨"2", "b", 4, none, false⟩]) :=
  (claim8_invariant_preserved
    [⟨"1", "a", 0, some 5, true⟩, ⟨"2", "b", 4, none, false⟩]
    (by decide)).2.1 "1" 7

/-- C10. Direct resume on an already running task: resumeTask
overwrites startTimestamp with the current instant whatever it held
before, leaves accumulated unchanged and the task running, so every
later queryElapsed result is derived from the new start instant and
the un-banked time of the interrupted interval is gone; toggleTask is
the only operation that inspects the running flag, dispatching a
running task to pauseTask. -/
theorem claim10_resume_discards (t : Task) (nowMs : Nat)
    (h : t.running = true) :
    (∀ s0 : Option Nat,
      resumeTask t.id nowMs [{ t with startTimestamp := s0 }] =
        [{ t with startTimestamp := some nowMs, running := true }]) ∧
    (nowMs ≠ 0 → ∀ m : Nat,
      queryElapsed { t with startTimestamp := some nowMs, running := true } m =
        t.accumulated + elapsedSec m nowMs) ∧
    (∀ (id : String) (l : List Task) (task : Task),
      l.find? (fun x => x.id == id) = some task → task.running = true →
      toggleTask id nowMs l = pauseTask id nowMs l) := by
  refine ⟨?_, ?_, ?_⟩
  · intro s0
    simp [resumeTask]
  · intro hn m
    have hguard : truthyTs (some nowMs) = true := by simp [truthyTs, hn]
    simp [queryElapsed, hguard]
  · intro id l task hfind hrun
    unfold toggleTask
    rw [hfind]
    simp [hrun]

/-- Witness for C10: resuming the running task ⟨"1","a",4,some 7,true⟩
at instant 9 overwrites the start timestamp 3 with 9, a later query at
2009 counts only from 9, and toggle on the running task pauses it. -/
theorem claim10_witness :
    resumeTask "1" 9 [⟨"1", "a", 4, some 3, true⟩] = [⟨"1", "a", 4, some 9, true⟩] ∧
    queryElapsed ⟨"1", "a", 4, some 9, true⟩ 2009 = 4 + elapsedSec 2009 9 ∧
    toggleTask "1" 9 [⟨"1", "a", 4, some 7, true⟩] =
      pauseTask "1" 9 [⟨"1", "a", 4, some 7, true⟩] :=
  ⟨(claim10_resume_discards ⟨"1", "a", 4, some 7, true⟩ 9 rfl).1 (some 3),
   (claim10_resume_discards ⟨"1", "a", 4, some 7, true⟩ 9 rfl).2.1 (by decide) 2009,
   (claim10_resume_discards ⟨"1", "a", 4, some 7, true⟩ 9 rfl).2.2 "1"
     [⟨"1", "a", 4, some 7, true⟩] ⟨"1", "a", 4, some 7, true⟩ (by rfl) rfl⟩

/-- C4 counterexample: the stored string "not json" is unparsable, and
on it the load path throws the JSON.parse error instead of initializing
an empty task list, because loadTasks at src/app/index.tsx lines 20-26
has no try-catch around JSON.parse. -/
theorem claim4_counterexample :
    (jsonParse "not json").isOk = false ∧
    (loadTasks (some "not json")).isThrown = true := by
  exact ⟨rfl, rfl⟩

/-- C4 amended: when the persisted value is absent (or the falsy empty
string) the store keeps the initial empty task list and nothing is
thrown, but when the persisted value is present and unparsable the
JSON.parse error propagates uncaught out of the load path. -/
theorem claim4_load_fails_soft_only_when_absent :
    loadTasks none = LoadResult.ok [] ∧
    loadTasks (some "") = LoadResult.ok [] ∧
    (∀ s e, jsonParse s = Except.error e → s ≠ "" →
      loadTasks (some s) = LoadResult.thrown e) := by
  refine ⟨rfl, rfl, ?_⟩
  intro s e hparse hne
  simp only [loadTasks]
  rw [if_neg hne, hparse]

/-- Witness for C4 amended: the unparsable stored string "x" makes the
load path rethrow the parse error. -/
theorem claim4_witness :
    loadTasks (some "x") = LoadResult.thrown "unexpected character" :=
  claim4_load_fails_soft_only_when_absent.2.2 "x" "unexpected character"
    rfl (by decide)

/-! ### Injectivity of the decimal numeral, for the task-id claim -/

/-- Unfolding toDigitsCore: the accumulator is appended on the right. -/
theorem toDigitsCore_append (b : Nat) (fuel : Nat) :
    ∀ (n : Nat) (ds : List Char),
      Nat.toDigitsCore b fuel n ds = Nat.toDigitsCore b fuel n [] ++ ds := by
  induction fuel with
  | zero => intro n ds; simp [Nat.toDigitsCore]
  | succ f ih =>
    intro n ds
    simp only [Nat.toDigitsCore]
    by_cases h : n / b = 0
    · simp [h]
    · simp only [h, if_false, if_neg]
      rw [ih (n / b) (Nat.digitChar (n % b) :: ds),
        ih (n / b) [Nat.digitChar (n % b)]]
      simp

/-- The fuel argument of toDigitsCore is irrelevant once it exceeds the
number being printed. -/
theorem toDigitsCore_fuel (n : Nat) :
    ∀ fuel fuel' : Nat, n < fuel → n < fuel' →
      Nat.toDigitsCore 10 fuel n [] = Nat.toDigitsCore 10 fuel' n [] := by
  induction n using Nat.strong_induction_on with
  | _ n ih =>
    intro fuel fuel' h h'
    match fuel, fuel' with
    | Nat.succ f, Nat.succ f' =>
      simp only [Nat.toDigitsCore]
      by_cases hnb : n / 10 = 0
      · simp [hnb]
      · simp only [hnb, if_false, if_neg]
        rw [toDigitsCore_append 10 f (n / 10) [Nat.digitChar (n % 10)],
          toDigitsCore_append 10 f' (n / 10) [Nat.digitChar (n % 10)]]
        rw [ih (n / 10) (by omega) f f' (by omega) (by omega)]

/-- Value of the character produced for one digit. -/
theorem digitChar_toNat (d : Nat) (h : d < 10) :
    (Nat.digitChar d).toNat = 48 + d := by
  interval_cases d <;> rfl

/-- Appending one digit multiplies the decoded value by ten. -/
theorem digitsToNat_append (ds : List Char) (c : Char) :
    digitsToNat (ds ++ [c]) = 10 * digitsToNat ds + (c.toNat - '0'.toNat) := by
  unfold digitsToNat
  rw [List.foldl_append]
  rfl

/-- Decoding the decimal digit string of n gives back n. -/
theorem digitsToNat_toDigits (n : Nat) :
    digitsToNat (Nat.toDigits 10 n) = n := by
  induction n using Nat.strong_induction_on with
  | _ n ih =>
    show digitsToNat (Nat.toDigitsCore 10 (n + 1) n []) = n
    simp only [Nat.toDigitsCore]
    by_cases hnb : n / 10 = 0
    · simp only [hnb, if_true]
      have hm : n % 10 < 10 := Nat.mod_lt n (by omega)
      simp only [digitsToNat, List.foldl_cons, List.foldl_nil]
      rw [digitChar_toNat (n % 10) hm]
      simp only [show Char.toNat '0' = 48 from rfl]
      omega
    · simp only [hnb, if_false, if_neg]
      rw [toDigitsCore_append 10 n (n / 10) [Nat.digitChar (n % 10)]]
      rw [toDigitsCore_fuel (n / 10) n (n / 10 + 1) (by omega) (by omega)]
      rw [digitsToNat_append]
      rw [show Nat.toDigitsCore 10 (n / 10 + 1) (n / 10) [] =
        Nat.toDigits 10 (n / 10) from rfl]
      rw [ih (n / 10) (by omega)]
      rw [digitChar_toNat (n % 10) (Nat.mod_lt n (by omega))]
      simp only [show Char.toNat '0' = 48 from rfl]
      omega

/-- The decimal numeral is injective. -/
theorem natRepr_injective {m n : Nat} (h : Nat.repr m = Nat.repr n) : m = n := by
  have hd : Nat.toDigits 10 m = Nat.toDigits 10 n := by
    have hdata := congrArg String.data h
    simpa [Nat.repr, List.asString] using hdata
  calc m = digitsToNat (Nat.toDigits 10 m) := (digitsToNat_toDigits m).symm
    _ = digitsToNat (Nat.toDigits 10 n) := by rw [hd]
    _ = n := digitsToNat_toDigits n

/-- C2 counterexample: two add operations executed in the same
millisecond (Date.now() returning 5 both times) create two distinct
tasks carrying the same id "5", refuting uniqueness of ids across
distinct tasks. -/
theorem claim2_counterexample :
    startTask "a" 5 [] = Except.ok [⟨"5", "a", 0, some 5, true⟩] ∧
    startTask "b" 5 [⟨"5", "a", 0, some 5, true⟩] =
      Except.ok [⟨"5", "a", 0, some 5, true⟩, ⟨"5", "b", 0, some 5, true⟩] ∧
    (⟨"5", "a", 0, some 5, true⟩ : Task) ≠ ⟨"5", "b", 0, some 5, true⟩ ∧
    (⟨"5", "a", 0, some 5, true⟩ : Task).id = (⟨"5", "b", 0, some 5, true⟩ : Task).id := by
  exact ⟨rfl, rfl, by decide, rfl⟩

/-- C2 amended: the id assigned at creation is the decimal string of
the creation instant, so tasks created at distinct instants receive
distinct ids; and pause, resume and reset never change any id. -/
theorem claim2_id_uniqueness :
    (∀ (nm : String) (ts : Nat) (l out : List Task),
      startTask nm ts l = Except.ok out →
        out = l ++ [⟨Nat.repr ts, nm, 0, some ts, true⟩]) ∧
    (∀ t1 t2 : Nat, t1 ≠ t2 → Nat.repr t1 ≠ Nat.repr t2) ∧
    (∀ id nowMs l, (pauseTask id nowMs l).map Task.id = l.map Task.id) ∧
    (∀ id nowMs l, (resumeTask id nowMs l).map Task.id = l.map Task.id) ∧
    (∀ id l, (resetTask id l).map Task.id = l.map Task.id) := by
  refine ⟨?_, ?_, ?_, ?_, ?_⟩
  · intro nm ts l out hok
    unfold startTask at hok
    by_cases h : jsTrim nm = ""
    · simp [h] at hok
    · simp only [h, if_neg, if_false] at hok
      cases hok
      rfl
  · intro t1 t2 hne h
    exact hne (natRepr_injective h)
  · intro id nowMs l
    unfold pauseTask
    rw [List.map_map]
    apply List.map_congr_left
    intro t ht
    simp only [Function.comp_apply]
    cases hst : t.startTimestamp with
    | none => simp [hst]
    | some s =>
      by_cases hc : (t.id == id && t.running && (s != 0)) = true <;>
        simp [hst, hc]
  · intro id nowMs l
    unfold resumeTask
    rw [List.map_map]
    apply List.map_congr_left
    intro t ht
    simp only [Function.comp_apply]
    by_cases hc : (t.id == id) = true <;> simp [hc]
  · intro id l
    unfold resetTask
    cases hfind : l.find? (fun t => t.id == id) with
    | none => rfl
    | some task =>
      rw [List.map_map]
      apply List.map_congr_left
      intro t ht
      simp only [Function.comp_apply]
      by_cases hc : (t.id == id) = true <;> simp [hc]

/-- Witness for C2 amended: two adds at the distinct instants 5 and 6
yield the distinct ids "5" and "6", and pausing changes no id. -/
theorem claim2_witness :
    ([⟨"5", "a", 0, some 5, true⟩] : List Task) =
      [] ++ [⟨Nat.repr 5, "a", 0, some 5, true⟩] ∧
    Nat.repr 5 ≠ Nat.repr 6 ∧
    (pauseTask "5" 7 [⟨"5", "a", 0, some 5, true⟩]).map Task.id =
      [⟨"5", "a", 0, some 5, true⟩].map Task.id :=
  ⟨claim2_id_uniqueness.1 "a" 5 [] [⟨"5", "a", 0, some 5, true⟩] rfl,
   claim2_id_uniqueness.2.1 5 6 (by decide),
   claim2_id_uniqueness.2.2.1 "5" 7 [⟨"5", "a", 0, some 5, true⟩]⟩

end TimeTracker
